import Mathlib

/-!
Shallow embedding of the dice-betting lobby server (src/server.js).

JavaScript values that are `null | number` are modelled as `Option Int`;
JavaScript relational comparison coerces `null` to `0`, strict equality
(`===`) is plain `Option` equality.  `Math.random()` draws are modelled as
an explicit oracle argument: a rational `r` with `0 ≤ r < 1` for single
draws, and for the Fisher-Yates shuffle an oracle `rand : Nat → Nat` whose
value is reduced `mod (i+1)` so that the swap index ranges over `[0, i]`,
exactly the range `Math.floor(Math.random() * (i + 1))` produces.
Timers (`setTimeout`) are modelled as explicitly scheduled continuations:
`Lobby.timer` holds the target of the currently armed auto-roll timeout,
and `World.pendingAdvances` counts the scheduled 3.5-unit turn-advance
continuations created by `performRoll`.
-/

namespace DiceGame

/-- JS `a > b` on `null | number` values: `null` coerces to `0`. -/
def jsToNum (a : Option Int) : Int := a.getD 0

/-- JS relational `>` on `null | number` values. -/
def jsGt (a b : Option Int) : Bool := jsToNum a > jsToNum b

/-- One swap step of the in-place Fisher-Yates loop:
`[array[i], array[j]] = [array[j], array[i]]`. -/
def listSwap {α : Type*} (a : List α) (i j : Nat) : List α :=
  match a[i]?, a[j]? with
  | some x, some y => (a.set i y).set j x
  | _, _ => a

/-- The loop of `shuffle` (src/server.js line 35): `i` runs from
`array.length - 1` down to `1`, swapping index `i` with a random
index `j ∈ [0, i]`. -/
def fyLoop {α : Type*} (rand : Nat → Nat) : Nat → List α → List α
  | 0, a => a
  | i + 1, a => fyLoop rand i (listSwap a (i + 1) (rand (i + 1) % (i + 2)))

/-- `shuffle(array)` from src/server.js, parameterised by the random oracle. -/
def shuffle {α : Type*} (rand : Nat → Nat) (a : List α) : List α :=
  fyLoop rand (a.length - 1) a

/-- `getRandomInt(min, max)` from src/server.js:
`Math.floor(Math.random() * (max - min + 1)) + min`, with the
`Math.random()` draw passed in as a rational `r`. -/
def getRandomInt (minV maxV : Int) (r : ℚ) : Int :=
  ⌊r * ((maxV : ℚ) - (minV : ℚ) + 1)⌋ + minV

lemma count_set_add {α : Type*} [DecidableEq α] (l : List α) (i : Nat) (y z : α)
    (h : i < l.length) :
    (l.set i y).count z + (if l[i] = z then 1 else 0)
      = l.count z + (if y = z then 1 else 0) := by
  rw [List.set_eq_take_cons_drop y h]
  conv_rhs =>
    rw [show l = l.take i ++ l[i] :: l.drop (i + 1) by
      rw [List.getElem_cons_drop l i h, List.take_append_drop]]
  simp only [List.count_append, List.count_cons, beq_iff_eq]
  by_cases h1 : l[i] = z <;> by_cases h2 : y = z <;> simp [h1, h2] <;> omega

lemma listSwap_perm {α : Type*} [DecidableEq α] (a : List α) (i j : Nat) :
    (listSwap a i j).Perm a := by
  unfold listSwap
  split
  case _ x y hi hj =>
    have hil : i < a.length := by
      by_contra hlt
      simp [List.getElem?_eq_none (Nat.le_of_not_lt hlt)] at hi
    have hjl : j < a.length := by
      by_contra hlt
      simp [List.getElem?_eq_none (Nat.le_of_not_lt hlt)] at hj
    have hx : a[i] = x := by
      have := List.getElem?_eq_getElem hil
      rw [hi] at this; exact (Option.some.injEq _ _ ▸ this).symm
    have hy : a[j] = y := by
      have := List.getElem?_eq_getElem hjl
      rw [hj] at this; exact (Option.some.injEq _ _ ▸ this).symm
    rw [List.perm_iff_count]
    intro z
    have c1 := count_set_add a i y z hil
    have hjl2 : j < (a.set i y).length := by simpa using hjl
    have c2 := count_set_add (a.set i y) j x z hjl2
    have hgj : (a.set i y)[j] = y := by
      by_cases hij : i = j
      · subst hij; simp
      · rw [List.getElem_set_ne hij]; exact hy
    rw [hgj] at c2
    rw [hx] at c1
    by_cases h1 : x = z <;> by_cases h2 : y = z <;>
      simp [h1, h2] at c1 c2 ⊢ <;> omega
  case _ => exact List.Perm.refl a

lemma fyLoop_perm {α : Type*} [DecidableEq α] (rand : Nat → Nat) (n : Nat)
    (a : List α) : (fyLoop rand n a).Perm a := by
  induction n generalizing a with
  | zero => exact List.Perm.refl a
  | succ i ih => exact (ih _).trans (listSwap_perm _ _ _)

lemma shuffle_perm {α : Type*} [DecidableEq α] (rand : Nat → Nat) (a : List α) :
    (shuffle rand a).Perm a :=
  fyLoop_perm rand (a.length - 1) a

lemma getRandomInt_bounds (r : ℚ) (h0 : 0 ≤ r) (h1 : r < 1) :
    1 ≤ getRandomInt 1 6 r ∧ getRandomInt 1 6 r ≤ 6 := by
  have harg : ((6 : ℤ) : ℚ) - ((1 : ℤ) : ℚ) + 1 = 6 := by norm_num
  unfold getRandomInt
  rw [harg]
  have hnn : (0 : ℤ) ≤ ⌊r * 6⌋ := Int.floor_nonneg.mpr (by positivity)
  have hlt : ⌊r * 6⌋ < (6 : ℤ) := Int.floor_lt.mpr (by push_cast; nlinarith)
  omega

/-- A seated player (an element of `lobby.players` in src/server.js). -/
structure Player where
  id : String
  nickname : String
  lastRoll : Option Int
deriving DecidableEq

/-- A lobby member (an element of `lobby.users`). -/
structure Member where
  id : String
  nickname : String
deriving DecidableEq

/-- The game-state string: `'IDLE' | 'BETTING' | 'PLAYING' | 'FINISHED'`. -/
inductive GState
  | IDLE
  | BETTING
  | PLAYING
  | FINISHED
deriving DecidableEq

/-- The lobby object created in the `create_lobby` handler.  `timer` models
the armed auto-roll timeout: `some pid` when a `setTimeout(... performRoll
(pid) ...)` is outstanding, `none` after it is cleared or has fired. -/
structure Lobby where
  id : String
  name : String
  roomHostId : String
  roomHostName : String
  tableHostId : Option String
  lastWinnerId : Option String
  state : GState
  bet : Int
  pot : Int
  users : List Member
  players : List Player
  turnOrder : List String
  turnIndex : Nat
  timer : Option String
deriving DecidableEq

/-- A connected socket: `socket.id`, `socket.userData.{id, nickname,
balance}` (the cached balance used for display and the funds check). -/
structure Socket where
  sid : String
  uid : Int
  nickname : String
  balance : Int
deriving DecidableEq

/-- A row of the `users` database table. -/
structure DbUser where
  uid : Int
  nickname : String
  balance : Int
deriving DecidableEq

/-- `UPDATE users SET balance = balance - amt WHERE id = uid`. -/
def ledgerDebit (l : List DbUser) (uid amt : Int) : List DbUser :=
  l.map fun u => if u.uid = uid then { u with balance := u.balance - amt } else u

/-- `UPDATE users SET balance = balance + amt WHERE nickname = nick`. -/
def ledgerCredit (l : List DbUser) (nick : String) (amt : Int) : List DbUser :=
  l.map fun u => if u.nickname = nick then { u with balance := u.balance + amt } else u

/-- The in-memory world the handlers mutate: the lobby under consideration,
the database table, the connected sockets (`io.sockets.sockets`), and the
number of scheduled 3.5-unit advance continuations (the second `setTimeout`
of `performRoll`). -/
structure World where
  lobby : Lobby
  ledger : List DbUser
  sockets : List Socket
  pendingAdvances : Nat
deriving DecidableEq

/-- `processTurn(lobby)` from src/server.js: look up the participant at the
current turn index; if absent, return early (no announcement, no timer);
otherwise announce the turn and arm the 10-unit auto-roll timeout.  The
second component is the `turn_notification` payload's player id, `none`
when nothing was announced. -/
def processTurn (lobby : Lobby) : Lobby × Option String :=
  match lobby.turnOrder[lobby.turnIndex]? with
  | none => (lobby, none)
  | some pid =>
    match lobby.players.find? (fun p => p.id == pid) with
    | none => (lobby, none)
    | some _ => ({ lobby with timer := some pid }, some pid)

/-- `startGame(lobby, participants)` from src/server.js: state=PLAYING,
turn order = shuffled participant ids, turn index 0, last winner cleared,
last rolls of players in the turn order cleared, then `processTurn`. -/
def startGame (rand : Nat → Nat) (lobby : Lobby) (participants : List Player) :
    Lobby × Option String :=
  let order := shuffle rand (participants.map Player.id)
  processTurn
    { lobby with
      state := .PLAYING
      turnOrder := order
      turnIndex := 0
      lastWinnerId := none
      players := lobby.players.map
        fun p => if order.contains p.id then { p with lastRoll := none } else p }

/-- Mutation `player.lastRoll = v` where `player` is the first element of
`players` whose id matches (the object returned by `players.find`). -/
def setLastRoll : List Player → String → Int → List Player
  | [], _, _ => []
  | p :: ps, pid, v =>
    if p.id = pid then { p with lastRoll := some v } :: ps
    else p :: setLastRoll ps pid v

/-- `performRoll(lobby, player, isAuto)` from src/server.js, restricted to
its effect on the lobby: cancel the pending auto-roll timeout, draw two
dice, store the sum as the player's last roll.  The 3.5-unit advance
`setTimeout` it schedules is counted in `World.pendingAdvances` by
`performRollW`.  Returns the rolled sum as the second component. -/
def performRoll (lobby : Lobby) (pid : String) (r1 r2 : ℚ) : Lobby × Int :=
  let d1 := getRandomInt 1 6 r1
  let d2 := getRandomInt 1 6 r2
  ({ lobby with timer := none, players := setLastRoll lobby.players pid (d1 + d2) },
   d1 + d2)

/-- `performRoll` on the world: the lobby effect plus one newly scheduled
advance continuation. -/
def performRollW (w : World) (pid : String) (r1 r2 : ℚ) : World :=
  { w with
    lobby := (performRoll w.lobby pid r1 r2).1
    pendingAdvances := w.pendingAdvances + 1 }

/-- `lobby.players.filter(p => lobby.turnOrder.includes(p.id))`. -/
def computeParticipants (lobby : Lobby) : List Player :=
  lobby.players.filter fun p => lobby.turnOrder.contains p.id

/-- The `highest` accumulator loop of `determineWinner`: starts at `-1` and
takes `p.lastRoll` whenever the JS comparison `p.lastRoll > highest`
holds (`null` coerces to `0` on either side). -/
def computeHighest (participants : List Player) : Option Int :=
  participants.foldl (fun h p => if jsGt p.lastRoll h then p.lastRoll else h)
    (some (-1))

/-- `participants.filter(p => p.lastRoll === highest)`. -/
def computeWinners (lobby : Lobby) : List Player :=
  let participants := computeParticipants lobby
  participants.filter fun p => p.lastRoll == computeHighest participants

/-- `determineWinner(lobby)` from src/server.js.  A unique maximum pays the
pot to the winner (database credit keyed by nickname, cached socket balance
if the winner is still connected), marks the winner, finishes the game,
keeps only table host and winner seated, and zeroes the pot.  Otherwise the
tied (or empty) winner set is handed back to `startGame` (sudden death). -/
def determineWinner (rand : Nat → Nat) (w : World) : World :=
  let winners := computeWinners w.lobby
  match winners with
  | [winner] =>
    let winAmount := w.lobby.pot
    { w with
      lobby :=
        { w.lobby with
          lastWinnerId := some winner.id
          state := .FINISHED
          players := w.lobby.players.filter
            fun p => w.lobby.tableHostId == some p.id || p.id == winner.id
          pot := 0 }
      ledger := ledgerCredit w.ledger winner.nickname winAmount
      sockets := w.sockets.map
        fun s => if s.sid == winner.id then { s with balance := s.balance + winAmount }
                 else s }
  | _ =>
    { w with lobby := (startGame rand w.lobby winners).1 }

/-- Outcome of one `sitAtTable(socket, lobby)` call.  `debitFailed` is the
`db.run` callback receiving an error: the callback returns at once, so
nothing in memory (or in the database) changes.  A debit is requested
exactly on the `seated` and `debitFailed` paths. -/
inductive SitOutcome
  | noSocket
  | alreadySeated
  | insufficientFunds
  | debitFailed
  | seated
deriving DecidableEq

/-- `sitAtTable(socket, lobby)` from src/server.js.  The order of checks is
the source's: already-seated first, then the cached-balance check (before
any debit is attempted), then the ledger debit; only on a confirmed debit
are the cached balance, the pot and the seated roster updated, in one step.
`debitOk` is the oracle for the external ledger's answer. -/
def sitAtTable (sid : String) (w : World) (debitOk : Bool) : World × SitOutcome :=
  match w.sockets.find? (fun s => s.sid == sid) with
  | none => (w, .noSocket)
  | some sock =>
    if w.lobby.players.any (fun p => p.id == sid) then (w, .alreadySeated)
    else if sock.balance < w.lobby.bet then (w, .insufficientFunds)
    else if debitOk then
      ({ w with
         ledger := ledgerDebit w.ledger sock.uid w.lobby.bet
         sockets := w.sockets.map
           fun s => if s.sid == sid then { s with balance := s.balance - w.lobby.bet }
                    else s
         lobby :=
           { w.lobby with
             pot := w.lobby.pot + w.lobby.bet
             players := w.lobby.players ++ [⟨sid, sock.nickname, none⟩] } },
       .seated)
    else (w, .debitFailed)

/-- Seat a sequence of requesters one after the other, every debit
confirmed. -/
def seatAll (sids : List String) (w : World) : World :=
  sids.foldl (fun w sid => (sitAtTable sid w true).1) w

/-- The `roll_dice` handler from src/server.js: silently ignored unless
state is PLAYING and the requester is the participant at the current turn
index; then the roll is performed.  The outer `none` is the JS `TypeError`
raised when the on-turn id is missing from the seated roster
(`player.lastRoll` on `undefined`); the Bool records whether a roll was
performed.  No `error_msg` is ever emitted by this handler. -/
def rollDiceW (sid : String) (r1 r2 : ℚ) (w : World) : Option (World × Bool) :=
  if w.lobby.state ≠ .PLAYING then some (w, false)
  else if w.lobby.turnOrder[w.lobby.turnIndex]? ≠ some sid then some (w, false)
  else
    match w.lobby.players.find? (fun p => p.id == sid) with
    | none => none
    | some _ => some (performRollW w sid r1 r2, true)

/-- One advance continuation firing (the 3.5-unit `setTimeout` body in
`performRoll`): increment the turn index, then either begin the next turn
or hand off to `determineWinner`. -/
def advanceW (rand : Nat → Nat) (w : World) : World :=
  match w.pendingAdvances with
  | 0 => w
  | n + 1 =>
    let l := { w.lobby with turnIndex := w.lobby.turnIndex + 1 }
    let w1 := { w with lobby := l, pendingAdvances := n }
    if l.turnOrder.length ≤ l.turnIndex then determineWinner rand w1
    else { w1 with lobby := (processTurn l).1 }

/-- `leaveLobby(socket)` from src/server.js, restricted to its effect on
one existing lobby: drop the leaver from members and seats, repair the
room host, repair or reset the table when the leaver hosted it, and delete
the lobby (`none`) when no members remain. -/
def leaveLobby (sid : String) (lobby : Lobby) : Option Lobby :=
  let users := lobby.users.filter fun u => !(u.id == sid)
  let players := lobby.players.filter fun p => !(p.id == sid)
  let l1 := { lobby with users := users, players := players }
  let l2 : Lobby :=
    if l1.roomHostId = sid ∧ l1.users ≠ [] then
      match l1.users with
      | u :: _ => { l1 with roomHostId := u.id, roomHostName := u.nickname }
      | [] => l1
    else l1
  let l3 : Lobby :=
    if l2.tableHostId = some sid then
      match l2.players with
      | p :: _ => { l2 with tableHostId := some p.id }
      | [] =>
        if l2.users ≠ [] then
          { l2 with tableHostId := none, state := .IDLE, bet := 0 }
        else l2
    else l2
  if l3.users = [] then none else some l3

lemma processTurn_eq (l : Lobby) : ∃ t, (processTurn l).1 = { l with timer := t } := by
  rcases h : l.turnOrder[l.turnIndex]? with _ | pid
  · exact ⟨l.timer, by simp [processTurn, h]⟩
  · rcases h2 : l.players.find? (fun p => p.id == pid) with _ | p
    · exact ⟨l.timer, by simp [processTurn, h, h2]⟩
    · exact ⟨some pid, by simp [processTurn, h, h2]⟩

lemma startGame_eq (rand : Nat → Nat) (lobby : Lobby) (ps : List Player) :
    ∃ t, (startGame rand lobby ps).1 =
      { lobby with
        state := .PLAYING
        turnOrder := shuffle rand (ps.map Player.id)
        turnIndex := 0
        lastWinnerId := none
        players := lobby.players.map
          fun p => if (shuffle rand (ps.map Player.id)).contains p.id then
                     { p with lastRoll := none }
                   else p
        timer := t } := by
  unfold startGame
  obtain ⟨t, ht⟩ := processTurn_eq
    { lobby with
      state := .PLAYING
      turnOrder := shuffle rand (ps.map Player.id)
      turnIndex := 0
      lastWinnerId := none
      players := lobby.players.map
        fun p => if (shuffle rand (ps.map Player.id)).contains p.id then
                   { p with lastRoll := none }
                 else p }
  exact ⟨t, ht⟩

lemma startGame_cleared (rand : Nat → Nat) (lobby : Lobby) (ps : List Player) :
    ∀ p ∈ (startGame rand lobby ps).1.players,
      p.id ∈ (startGame rand lobby ps).1.turnOrder → p.lastRoll = none := by
  obtain ⟨t, ht⟩ := startGame_eq rand lobby ps
  rw [ht]
  intro p hp hmem
  obtain ⟨q, hq, rfl⟩ := List.mem_map.mp hp
  by_cases hc : (shuffle rand (ps.map Player.id)).contains q.id
  · simp only [hc, if_pos]
  · exfalso
    rw [if_neg hc] at hmem
    exact hc ((List.elem_iff).mpr hmem)

/-- C3: for every non-empty participant list, `startGame` produces a turn
order that is a permutation of exactly those participants' ids, resets the
turn index to 0, clears the last winner, and clears the last roll of every
seated player whose id is in the turn order. -/
theorem startGame_round_start (rand : Nat → Nat) (lobby : Lobby)
    (ps : List Player) (hps : ps ≠ []) :
    ((startGame rand lobby ps).1.turnOrder).Perm (ps.map Player.id) ∧
    (startGame rand lobby ps).1.turnIndex = 0 ∧
    (startGame rand lobby ps).1.lastWinnerId = none ∧
    ∀ p ∈ (startGame rand lobby ps).1.players,
      p.id ∈ (startGame rand lobby ps).1.turnOrder → p.lastRoll = none := by
  obtain ⟨t, ht⟩ := startGame_eq rand lobby ps
  refine ⟨?_, ?_, ?_, startGame_cleared rand lobby ps⟩
  · rw [ht]; exact shuffle_perm rand (ps.map Player.id)
  · rw [ht]
  · rw [ht]

/-- Witness for C3 at a concrete two-player table with a concrete oracle. -/
theorem startGame_round_start_witness :
    ([⟨"a", "A", some 5⟩, ⟨"b", "B", some 3⟩] : List Player) ≠ [] ∧
    ((startGame (fun _ => 0)
        ⟨"r", "r", "a", "A", some "a", some "a", .BETTING, 10, 20,
         [⟨"a", "A"⟩, ⟨"b", "B"⟩], [⟨"a", "A", some 5⟩, ⟨"b", "B", some 3⟩],
         [], 0, none⟩
        [⟨"a", "A", some 5⟩, ⟨"b", "B", some 3⟩]).1.turnOrder).Perm ["a", "b"] := by
  refine ⟨by decide, ?_⟩
  have h := startGame_round_start (fun _ => 0)
    ⟨"r", "r", "a", "A", some "a", some "a", .BETTING, 10, 20,
     [⟨"a", "A"⟩, ⟨"b", "B"⟩], [⟨"a", "A", some 5⟩, ⟨"b", "B", some 3⟩],
     [], 0, none⟩
    [⟨"a", "A", some 5⟩, ⟨"b", "B", some 3⟩] (by decide)
  exact h.1

/-- C5 (amended): when the turn-order entry at the current index refers to
a participant absent from the seated roster, `processTurn` returns early:
the lobby is unchanged, nothing is announced, and no auto-roll timer is
armed — the round stalls instead of skipping forward. -/
theorem processTurn_missing_returns_early (l : Lobby) (pid : String)
    (hcur : l.turnOrder[l.turnIndex]? = some pid)
    (hmiss : l.players.find? (fun p => p.id == pid) = none) :
    processTurn l = (l, none) := by
  simp [processTurn, hcur, hmiss]

/-- The lobby used to exhibit the C5 stall. -/
def ex5 : Lobby :=
  ⟨"r", "r", "a", "A", some "a", none, .PLAYING, 10, 20,
   [⟨"a", "A"⟩, ⟨"b", "B"⟩], [⟨"b", "B", none⟩], ["a", "b"], 0, none⟩

/-- C5 counterexample: in a PLAYING lobby whose current turn-order entry
`"a"` is missing from the seated roster, `processTurn` does not advance to
the next present participant and does not resolve the round: the lobby is
returned bit-identical (turn index still 0, no timer armed) and nothing is
announced. -/
theorem processTurn_stall_cex :
    ex5.state = .PLAYING ∧
    ex5.turnOrder[ex5.turnIndex]? = some "a" ∧
    ex5.players.find? (fun p => p.id == "a") = none ∧
    processTurn ex5 = (ex5, none) ∧
    (processTurn ex5).1.turnIndex = ex5.turnIndex ∧
    (processTurn ex5).1.timer = none := by
  exact ⟨rfl, rfl, rfl, rfl, rfl, rfl⟩

/-- Witness for the amended C5 theorem at the concrete stalled lobby. -/
theorem processTurn_missing_returns_early_witness :
    processTurn ex5 = (ex5, none) :=
  processTurn_missing_returns_early ex5 "a" rfl rfl

/-- C7: a `roll_dice` message arriving while the lobby is not PLAYING, or
from a requester who is not the participant at the current turn index, is
silently ignored: the handler emits no error (it has no error channel at
all) and the world — the lobby in particular — is returned bit-identical. -/
theorem rollDice_stale_noop (sid : String) (r1 r2 : ℚ) (w : World)
    (h : w.lobby.state ≠ .PLAYING ∨
         w.lobby.turnOrder[w.lobby.turnIndex]? ≠ some sid) :
    rollDiceW sid r1 r2 w = some (w, false) := by
  unfold rollDiceW
  rcases h with h | h
  · rw [if_pos h]
  · by_cases hs : w.lobby.state ≠ .PLAYING
    · rw [if_pos hs]
    · rw [if_neg hs, if_pos h]

/-- Witness for C7: the off-turn player `"b"` rolls in `ex5` and nothing
changes. -/
theorem rollDice_stale_noop_witness :
    rollDiceW "b" (1/2) (1/2) ⟨ex5, [], [], 0⟩ = some (⟨ex5, [], [], 0⟩, false) :=
  rollDice_stale_noop "b" (1/2) (1/2) ⟨ex5, [], [], 0⟩ (Or.inr (by decide))

lemma setLastRoll_find (ps : List Player) (pid : String) (v : Int) :
    (setLastRoll ps pid v).find? (fun p => p.id == pid)
      = (ps.find? (fun p => p.id == pid)).map
          (fun p => { p with lastRoll := some v }) := by
  induction ps with
  | nil => rfl
  | cons q ps ih =>
    by_cases h : q.id = pid
    · simp [setLastRoll, h]
    · simp [setLastRoll, h, ih]

lemma setLastRoll_mem_ne (ps : List Player) (pid : String) (v : Int) (p : Player)
    (hp : p ∈ ps) (hne : p.id ≠ pid) : p ∈ setLastRoll ps pid v := by
  induction ps with
  | nil => cases hp
  | cons q ps ih =>
    rcases List.mem_cons.mp hp with rfl | hp'
    · rw [setLastRoll, if_neg hne]
      exact List.mem_cons_self p _
    · by_cases h : q.id = pid
      · rw [setLastRoll, if_pos h]
        exact List.mem_cons_of_mem _ hp'
      · rw [setLastRoll, if_neg h]
        exact List.mem_cons_of_mem _ (ih hp')

/-- C9: a participant's last roll is `null` from round start until their
first roll — `startGame` clears it for everyone in the turn order, and a
roll only writes the rolling participant's entry — and immediately after
any roll it equals the sum of two dice drawn by `getRandomInt(1, 6)`, each
in `[1, 6]`, hence an integer in `[2, 12]`. -/
theorem lastRoll_null_until_roll_then_sum :
    (∀ r : ℚ, 0 ≤ r → r < 1 →
       1 ≤ getRandomInt 1 6 r ∧ getRandomInt 1 6 r ≤ 6) ∧
    (∀ (rand : Nat → Nat) (lobby : Lobby) (ps : List Player),
       ∀ p ∈ (startGame rand lobby ps).1.players,
         p.id ∈ (startGame rand lobby ps).1.turnOrder → p.lastRoll = none) ∧
    (∀ (lobby : Lobby) (pid : String) (r1 r2 : ℚ),
       0 ≤ r1 → r1 < 1 → 0 ≤ r2 → r2 < 1 →
       (performRoll lobby pid r1 r2).2
           = getRandomInt 1 6 r1 + getRandomInt 1 6 r2 ∧
       2 ≤ (performRoll lobby pid r1 r2).2 ∧
       (performRoll lobby pid r1 r2).2 ≤ 12 ∧
       ((performRoll lobby pid r1 r2).1.players.find? (fun p => p.id == pid))
           = (lobby.players.find? (fun p => p.id == pid)).map
               (fun p => { p with lastRoll := some ((performRoll lobby pid r1 r2).2) }) ∧
       (∀ p ∈ lobby.players, p.id ≠ pid →
          p ∈ (performRoll lobby pid r1 r2).1.players)) := by
  refine ⟨getRandomInt_bounds, startGame_cleared, ?_⟩
  intro lobby pid r1 r2 h10 h11 h20 h21
  obtain ⟨ha1, ha2⟩ := getRandomInt_bounds r1 h10 h11
  obtain ⟨hb1, hb2⟩ := getRandomInt_bounds r2 h20 h21
  refine ⟨rfl, by simp only [performRoll]; omega, by simp only [performRoll]; omega,
    ?_, ?_⟩
  · exact setLastRoll_find lobby.players pid _
  · intro p hp hne
    exact setLastRoll_mem_ne lobby.players pid _ p hp hne

/-- Witness for C9 at the draw `r = 1/2` (dice value 4, sum 8) on a
concrete one-player roster. -/
theorem lastRoll_null_until_roll_then_sum_witness :
    2 ≤ (performRoll ex5 "b" (1/2) (1/2)).2 ∧
    (performRoll ex5 "b" (1/2) (1/2)).2 ≤ 12 := by
  have h := (lastRoll_null_until_roll_then_sum.2.2 ex5 "b" (1/2) (1/2)
    (by norm_num) (by norm_num) (by norm_num) (by norm_num))
  exact ⟨h.2.1, h.2.2.1⟩

/-- C1: when round resolution finds a unique maximal participant, the full
(pre-reset) pot is credited to the winner's database balance, the winner is
recorded as last winner, the state becomes FINISHED, the pot is reset to 0,
the seated roster is reduced to exactly those previously seated players
whose id is the table host's or the winner's, and the member roster is
untouched. -/
theorem determineWinner_unique (rand : Nat → Nat) (w : World) (winner : Player)
    (hw : computeWinners w.lobby = [winner]) :
    (determineWinner rand w).lobby.lastWinnerId = some winner.id ∧
    (determineWinner rand w).lobby.state = .FINISHED ∧
    (determineWinner rand w).lobby.pot = 0 ∧
    (determineWinner rand w).lobby.players
        = w.lobby.players.filter
            (fun p => w.lobby.tableHostId == some p.id || p.id == winner.id) ∧
    (determineWinner rand w).lobby.users = w.lobby.users ∧
    (determineWinner rand w).ledger
        = ledgerCredit w.ledger winner.nickname w.lobby.pot ∧
    (∀ u ∈ w.ledger, u.nickname = winner.nickname →
       { u with balance := u.balance + w.lobby.pot }
         ∈ (determineWinner rand w).ledger) := by
  have hred : determineWinner rand w =
      { w with
        lobby :=
          { w.lobby with
            lastWinnerId := some winner.id
            state := .FINISHED
            players := w.lobby.players.filter
              fun p => w.lobby.tableHostId == some p.id || p.id == winner.id
            pot := 0 }
        ledger := ledgerCredit w.ledger winner.nickname w.lobby.pot
        sockets := w.sockets.map
          fun s => if s.sid == winner.id then
                     { s with balance := s.balance + w.lobby.pot }
                   else s } := by
    simp [determineWinner, hw]
  rw [hred]
  refine ⟨rfl, rfl, rfl, rfl, rfl, rfl, ?_⟩
  intro u hu hnick
  simp only [ledgerCredit, List.mem_map]
  exact ⟨u, hu, by rw [if_pos hnick]⟩

lemma computeWinners_sublist (lobby : Lobby) :
    ∀ p ∈ computeWinners lobby, p ∈ lobby.players := by
  intro p hp
  unfold computeWinners computeParticipants at hp
  exact (List.mem_filter.mp (List.mem_filter.mp hp).1).1

/-- C2: when more than one participant attains the maximal last roll, the
resolution engine re-enters `startGame` with exactly the tied participants:
the pot and the ledger are unmoved, the new turn order is a permutation of
exactly the tied players' ids, every previously seated player stays seated
(same id sequence), and no non-tied seated player appears in the new turn
order. -/
theorem determineWinner_tie (rand : Nat → Nat) (w : World)
    (hk : 2 ≤ (computeWinners w.lobby).length)
    (hnd : (w.lobby.players.map Player.id).Nodup) :
    (determineWinner rand w).lobby.pot = w.lobby.pot ∧
    (determineWinner rand w).ledger = w.ledger ∧
    (determineWinner rand w).lobby.state = .PLAYING ∧
    ((determineWinner rand w).lobby.turnOrder).Perm
        ((computeWinners w.lobby).map Player.id) ∧
    (determineWinner rand w).lobby.players.map Player.id
        = w.lobby.players.map Player.id ∧
    (∀ p ∈ w.lobby.players, p ∉ computeWinners w.lobby →
       p.id ∉ (determineWinner rand w).lobby.turnOrder) := by
  rcases hws : computeWinners w.lobby with _ | ⟨a, _ | ⟨b, t⟩⟩
  · rw [hws] at hk; simp at hk
  · rw [hws] at hk; simp at hk
  · have hred : determineWinner rand w =
        { w with lobby := (startGame rand w.lobby (a :: b :: t)).1 } := by
      simp [determineWinner, hws]
    obtain ⟨tm, ht⟩ := startGame_eq rand w.lobby (a :: b :: t)
    have hperm : ((startGame rand w.lobby (a :: b :: t)).1.turnOrder).Perm
        ((a :: b :: t).map Player.id) := by
      rw [ht]; exact shuffle_perm rand _
    have hplayers : (startGame rand w.lobby (a :: b :: t)).1.players.map Player.id
        = w.lobby.players.map Player.id := by
      rw [ht]
      simp only [List.map_map]
      refine List.map_congr_left ?_
      intro p _
      dsimp only [Function.comp_apply]
      split <;> rfl
    refine ⟨by rw [hred, ht], by rw [hred], by rw [hred, ht], ?_, ?_, ?_⟩
    · rw [hred]; exact hperm
    · rw [hred]; exact hplayers
    · intro p hp hpw
      rw [hred]
      intro hmem
      have hmem' : p.id ∈ (a :: b :: t).map Player.id := (hperm.mem_iff).mp hmem
      obtain ⟨q, hq, hqid⟩ := List.mem_map.mp hmem'
      have hqp : q ∈ w.lobby.players := by
        have := computeWinners_sublist w.lobby q
        rw [hws] at this
        exact this hq
      have : q = p := List.inj_on_of_nodup_map hnd hqp hp hqid
      rw [this] at hq
      exact hpw hq

/-- Witness for C2: two players tied at 9; the pot stays put and the new
turn order is a permutation of exactly the tied pair. -/
theorem determineWinner_tie_witness :
    2 ≤ (computeWinners
      ⟨"r", "r", "a", "A", some "a", none, .PLAYING, 10, 20,
       [⟨"a", "A"⟩, ⟨"b", "B"⟩], [⟨"a", "A", some 9⟩, ⟨"b", "B", some 9⟩],
       ["a", "b"], 2, none⟩).length ∧
    (determineWinner (fun _ => 0)
      ⟨⟨"r", "r", "a", "A", some "a", none, .PLAYING, 10, 20,
        [⟨"a", "A"⟩, ⟨"b", "B"⟩], [⟨"a", "A", some 9⟩, ⟨"b", "B", some 9⟩],
        ["a", "b"], 2, none⟩, [], [], 0⟩).lobby.pot = 20 := by
  constructor
  · decide
  · exact (determineWinner_tie (fun _ => 0)
      ⟨⟨"r", "r", "a", "A", some "a", none, .PLAYING, 10, 20,
        [⟨"a", "A"⟩, ⟨"b", "B"⟩], [⟨"a", "A", some 9⟩, ⟨"b", "B", some 9⟩],
        ["a", "b"], 2, none⟩, [], [], 0⟩ (by decide) (by decide)).1

/-- Witness for C1: Alice rolls 9, Bob rolls 7; Alice is the unique
winner, the pot is zeroed and her ledger row gains the pot. -/
theorem determineWinner_unique_witness :
    computeWinners
      ⟨"r", "r", "a", "A", some "a", none, .PLAYING, 50, 100,
       [⟨"a", "A"⟩, ⟨"b", "B"⟩], [⟨"a", "A", some 9⟩, ⟨"b", "B", some 7⟩],
       ["a", "b"], 2, none⟩ = [⟨"a", "A", some 9⟩] ∧
    (determineWinner (fun _ => 0)
      ⟨⟨"r", "r", "a", "A", some "a", none, .PLAYING, 50, 100,
        [⟨"a", "A"⟩, ⟨"b", "B"⟩], [⟨"a", "A", some 9⟩, ⟨"b", "B", some 7⟩],
        ["a", "b"], 2, none⟩, [⟨1, "A", 900⟩], [], 0⟩).lobby.pot = 0 ∧
    (determineWinner (fun _ => 0)
      ⟨⟨"r", "r", "a", "A", some "a", none, .PLAYING, 50, 100,
        [⟨"a", "A"⟩, ⟨"b", "B"⟩], [⟨"a", "A", some 9⟩, ⟨"b", "B", some 7⟩],
        ["a", "b"], 2, none⟩, [⟨1, "A", 900⟩], [], 0⟩).lobby.state = .FINISHED := by
  refine ⟨by decide, ?_, ?_⟩
  · exact (determineWinner_unique (fun _ => 0)
      ⟨⟨"r", "r", "a", "A", some "a", none, .PLAYING, 50, 100,
        [⟨"a", "A"⟩, ⟨"b", "B"⟩], [⟨"a", "A", some 9⟩, ⟨"b", "B", some 7⟩],
        ["a", "b"], 2, none⟩, [⟨1, "A", 900⟩], [], 0⟩
      ⟨"a", "A", some 9⟩ (by decide)).2.2.1
  · exact (determineWinner_unique (fun _ => 0)
      ⟨⟨"r", "r", "a", "A", some "a", none, .PLAYING, 50, 100,
        [⟨"a", "A"⟩, ⟨"b", "B"⟩], [⟨"a", "A", some 9⟩, ⟨"b", "B", some 7⟩],
        ["a", "b"], 2, none⟩, [⟨1, "A", 900⟩], [], 0⟩
      ⟨"a", "A", some 9⟩ (by decide)).2.1

lemma sitAtTable_insufficient (sid : String) (w : World) (dOk : Bool) (sock : Socket)
    (hfind : w.sockets.find? (fun s => s.sid == sid) = some sock)
    (hseat : w.lobby.players.any (fun p => p.id == sid) = false)
    (hbal : sock.balance < w.lobby.bet) :
    sitAtTable sid w dOk = (w, .insufficientFunds) := by
  simp [sitAtTable, hfind, hseat, hbal]

lemma sitAtTable_debitFailed (sid : String) (w : World) (sock : Socket)
    (hfind : w.sockets.find? (fun s => s.sid == sid) = some sock)
    (hseat : w.lobby.players.any (fun p => p.id == sid) = false)
    (hbal : ¬sock.balance < w.lobby.bet) :
    sitAtTable sid w false = (w, .debitFailed) := by
  simp [sitAtTable, hfind, hseat, hbal]

lemma sitAtTable_success (sid : String) (w : World) (sock : Socket)
    (hfind : w.sockets.find? (fun s => s.sid == sid) = some sock)
    (hseat : w.lobby.players.any (fun p => p.id == sid) = false)
    (hbal : ¬sock.balance < w.lobby.bet) :
    sitAtTable sid w true =
      ({ w with
         ledger := ledgerDebit w.ledger sock.uid w.lobby.bet
         sockets := w.sockets.map
           fun s => if s.sid == sid then { s with balance := s.balance - w.lobby.bet }
                    else s
         lobby :=
           { w.lobby with
             pot := w.lobby.pot + w.lobby.bet
             players := w.lobby.players ++ [⟨sid, sock.nickname, none⟩] } },
       .seated) := by
  simp [sitAtTable, hfind, hseat, hbal]

lemma find_sockets_map_ne (sockets : List Socket) (sid sid' : String) (b : Int)
    (hne : sid' ≠ sid) :
    (sockets.map
        (fun s => if s.sid == sid then { s with balance := s.balance - b } else s)).find?
        (fun s => s.sid == sid')
      = sockets.find? (fun s => s.sid == sid') := by
  induction sockets with
  | nil => rfl
  | cons q qs ih =>
    simp only [List.map_cons]
    have hsidq :
        (if (q.sid == sid) = true then
           ({ q with balance := q.balance - b } : Socket)
         else q).sid = q.sid := by
      split <;> rfl
    by_cases h2 : q.sid = sid'
    · have hq : ¬q.sid = sid := fun h => hne (h2.symm.trans h)
      have hfq : (if (q.sid == sid) = true then
          ({ q with balance := q.balance - b } : Socket) else q) = q := by
        simp [hq]
      rw [hfq, List.find?_cons_of_pos _ (by simp [h2]),
        List.find?_cons_of_pos _ (by simp [h2])]
    · rw [List.find?_cons_of_neg _ (by
          simp only [beq_iff_eq]
          split <;> exact h2),
        List.find?_cons_of_neg _ (by simp [h2])]
      exact ih

lemma seatAll_pot (sids : List String) : ∀ (w : World),
    sids.Nodup →
    (∀ sid ∈ sids, ∃ sock, w.sockets.find? (fun s => s.sid == sid) = some sock ∧
       w.lobby.bet ≤ sock.balance) →
    (∀ sid ∈ sids, w.lobby.players.any (fun p => p.id == sid) = false) →
    (seatAll sids w).lobby.pot = w.lobby.pot + sids.length * w.lobby.bet := by
  induction sids with
  | nil => intro w _ _ _; simp [seatAll]
  | cons sid rest ih =>
    intro w hnd hsock hseat
    obtain ⟨sock, hfind, hbal⟩ := hsock sid (List.mem_cons_self sid rest)
    have hsit := sitAtTable_success sid w sock hfind
      (hseat sid (List.mem_cons_self sid rest)) (not_lt.mpr hbal)
    have hstep : seatAll (sid :: rest) w = seatAll rest (sitAtTable sid w true).1 :=
      rfl
    have hnotmem : sid ∉ rest := (List.nodup_cons.mp hnd).1
    have h1 : ∀ sid' ∈ rest, ∃ sock',
        ((sitAtTable sid w true).1).sockets.find? (fun s => s.sid == sid')
            = some sock' ∧
        ((sitAtTable sid w true).1).lobby.bet ≤ sock'.balance := by
      intro sid' hsid'
      have hne : sid' ≠ sid := fun h => hnotmem (h ▸ hsid')
      obtain ⟨sock', hfind', hbal'⟩ := hsock sid' (List.mem_cons_of_mem _ hsid')
      refine ⟨sock', ?_, ?_⟩
      · rw [hsit]
        show (w.sockets.map _).find? _ = some sock'
        rw [find_sockets_map_ne w.sockets sid sid' w.lobby.bet hne]
        exact hfind'
      · rw [hsit]
        exact hbal'
    have h2 : ∀ sid' ∈ rest,
        (((sitAtTable sid w true).1).lobby.players.any fun p => p.id == sid')
          = false := by
      intro sid' hsid'
      have hne : sid' ≠ sid := fun h => hnotmem (h ▸ hsid')
      rw [hsit]
      show (w.lobby.players ++ [(⟨sid, sock.nickname, none⟩ : Player)]).any _ = false
      rw [List.any_append, hseat sid' (List.mem_cons_of_mem _ hsid')]
      simp [Ne.symm hne]
    have hrec := ih ((sitAtTable sid w true).1) (List.nodup_cons.mp hnd).2 h1 h2
    rw [hstep, hrec, hsit]
    show w.lobby.pot + w.lobby.bet + (rest.length : Int) * w.lobby.bet
        = w.lobby.pot + ((sid :: rest).length : Int) * w.lobby.bet
    simp only [List.length_cons]
    push_cast
    ring

/-- C4: the funds check precedes any debit (an under-funded requester is
rejected with the world unchanged); a failed ledger debit leaves the
requester unseated and the world — pot, roster, cached balances, ledger —
unchanged; a confirmed debit seats the requester, adds exactly the bet to
the pot and debits exactly the bet from the cached balance and the ledger,
as one step; and seating `k` distinct sufficiently-funded players at bet
`b` onto a table yields pot `pot₀ + k·b`. -/
theorem sitAtTable_atomic :
    (∀ (sid : String) (w : World) (dOk : Bool) (sock : Socket),
       w.sockets.find? (fun s => s.sid == sid) = some sock →
       w.lobby.players.any (fun p => p.id == sid) = false →
       sock.balance < w.lobby.bet →
       sitAtTable sid w dOk = (w, .insufficientFunds)) ∧
    (∀ (sid : String) (w : World) (sock : Socket),
       w.sockets.find? (fun s => s.sid == sid) = some sock →
       w.lobby.players.any (fun p => p.id == sid) = false →
       ¬sock.balance < w.lobby.bet →
       sitAtTable sid w false = (w, .debitFailed)) ∧
    (∀ (sid : String) (w : World) (sock : Socket),
       w.sockets.find? (fun s => s.sid == sid) = some sock →
       w.lobby.players.any (fun p => p.id == sid) = false →
       ¬sock.balance < w.lobby.bet →
       (sitAtTable sid w true).2 = .seated ∧
       (sitAtTable sid w true).1.lobby.pot = w.lobby.pot + w.lobby.bet ∧
       (sitAtTable sid w true).1.lobby.players
           = w.lobby.players ++ [⟨sid, sock.nickname, none⟩] ∧
       (sitAtTable sid w true).1.ledger = ledgerDebit w.ledger sock.uid w.lobby.bet ∧
       (sitAtTable sid w true).1.lobby.bet = w.lobby.bet) ∧
    (∀ (sids : List String) (w : World),
       sids.Nodup →
       (∀ sid ∈ sids, ∃ sock, w.sockets.find? (fun s => s.sid == sid) = some sock ∧
          w.lobby.bet ≤ sock.balance) →
       (∀ sid ∈ sids, w.lobby.players.any (fun p => p.id == sid) = false) →
       (seatAll sids w).lobby.pot = w.lobby.pot + sids.length * w.lobby.bet) := by
  refine ⟨sitAtTable_insufficient, sitAtTable_debitFailed, ?_,
    fun sids w => seatAll_pot sids w⟩
  intro sid w sock hfind hseat hbal
  rw [sitAtTable_success sid w sock hfind hseat hbal]
  exact ⟨rfl, rfl, rfl, rfl, rfl⟩

/-- The world used for the C4 witness: an empty BETTING table at bet 50,
two funded sockets. -/
def ex4 : World :=
  ⟨⟨"r", "r", "a", "A", some "a", none, .BETTING, 50, 0,
    [⟨"a", "A"⟩, ⟨"b", "B"⟩], [], [], 0, none⟩,
   [⟨1, "A", 1000⟩, ⟨2, "B", 30⟩],
   [⟨"a", 1, "A", 1000⟩, ⟨"b", 2, "B", 30⟩], 0⟩

/-- Witness for C4: the under-funded socket `"b"` is rejected unchanged,
and seating the single funded socket `"a"` yields pot `1·50`. -/
theorem sitAtTable_atomic_witness :
    sitAtTable "b" ex4 true = (ex4, .insufficientFunds) ∧
    (seatAll ["a"] ex4).lobby.pot = 0 + 1 * 50 := by
  constructor
  · exact sitAtTable_atomic.1 "b" ex4 true ⟨"b", 2, "B", 30⟩
      (by decide) (by decide) (by decide)
  · exact sitAtTable_atomic.2.2.2 ["a"] ex4 (by decide)
      (by
        intro sid hsid
        have hs : sid = "a" := by simpa using hsid
        subst hs
        exact ⟨⟨"a", 1, "A", 1000⟩, by decide, by decide⟩)
      (by
        intro sid hsid
        have hs : sid = "a" := by simpa using hsid
        subst hs
        decide)

/-- C6 (amended): when the table host departs and no seated players remain
while members do remain, the table is reset — table host cleared, state
IDLE, bet 0 — but the pot is left untouched (it is not returned and not
zeroed). -/
theorem leaveLobby_table_reset (sid : String) (lobby : Lobby)
    (hhost : lobby.tableHostId = some sid)
    (hnoseat : lobby.players.filter (fun p => !(p.id == sid)) = [])
    (husers : lobby.users.filter (fun u => !(u.id == sid)) ≠ []) :
    ∃ l', leaveLobby sid lobby = some l' ∧
      l'.tableHostId = none ∧ l'.state = .IDLE ∧ l'.bet = 0 ∧
      l'.pot = lobby.pot ∧ l'.players = [] := by
  rcases hU : lobby.users.filter (fun u => !(u.id == sid)) with _ | ⟨u, us⟩
  · exact absurd hU husers
  · unfold leaveLobby
    rw [hU, hnoseat]
    by_cases hrh : lobby.roomHostId = sid <;>
      simp [hrh, hhost]

/-- The lobby used to exhibit the C6 stranded pot: host `"a"` is the only
seated player, pot is 100, a second member `"b"` remains. -/
def ex6 : Lobby :=
  ⟨"r", "r", "b", "B", some "a", none, .BETTING, 100, 100,
   [⟨"a", "A"⟩, ⟨"b", "B"⟩], [⟨"a", "A", none⟩], [], 0, none⟩

/-- C6 counterexample: the table host disconnects from `ex6`, leaving no
seated players but one member; the table is reset (host none, state IDLE,
bet 0) yet the pot is still 100, not 0 as the claim states. -/
theorem leaveLobby_pot_not_reset_cex :
    ex6.tableHostId = some "a" ∧
    ex6.players.filter (fun p => !(p.id == "a")) = [] ∧
    ex6.users.filter (fun u => !(u.id == "a")) ≠ [] ∧
    (leaveLobby "a" ex6).map Lobby.tableHostId = some none ∧
    (leaveLobby "a" ex6).map Lobby.state = some .IDLE ∧
    (leaveLobby "a" ex6).map Lobby.bet = some 0 ∧
    (leaveLobby "a" ex6).map Lobby.pot = some 100 ∧
    (leaveLobby "a" ex6).map Lobby.pot ≠ some 0 := by
  decide

/-- Witness for the amended C6 theorem at `ex6`. -/
theorem leaveLobby_table_reset_witness :
    ∃ l', leaveLobby "a" ex6 = some l' ∧
      l'.tableHostId = none ∧ l'.state = .IDLE ∧ l'.bet = 0 ∧
      l'.pot = ex6.pot ∧ l'.players = [] :=
  leaveLobby_table_reset "a" ex6 (by decide) (by decide) (by decide)

lemma advanceW_succ (rand : Nat → Nat) (w : World) (n : Nat)
    (hp : w.pendingAdvances = n + 1)
    (hlt : w.lobby.turnIndex + 1 < w.lobby.turnOrder.length) :
    (advanceW rand w).lobby.turnIndex = w.lobby.turnIndex + 1 ∧
    (advanceW rand w).lobby.turnOrder = w.lobby.turnOrder ∧
    (advanceW rand w).pendingAdvances = n := by
  unfold advanceW
  rw [show w.pendingAdvances = Nat.succ n from hp]
  have hcond : ¬((w.lobby.turnOrder.length : Nat) ≤ w.lobby.turnIndex + 1) :=
    not_le.mpr hlt
  obtain ⟨t, ht⟩ := processTurn_eq { w.lobby with turnIndex := w.lobby.turnIndex + 1 }
  simp only [ht, if_neg hcond]
  exact ⟨trivial, trivial, trivial⟩

lemma rollDiceW_on_turn (sid : String) (r1 r2 : ℚ) (w : World) (pl : Player)
    (hstate : w.lobby.state = .PLAYING)
    (hcur : w.lobby.turnOrder[w.lobby.turnIndex]? = some sid)
    (hplayer : w.lobby.players.find? (fun p => p.id == sid) = some pl) :
    rollDiceW sid r1 r2 w = some (performRollW w sid r1 r2, true) := by
  unfold rollDiceW
  rw [if_neg (by simp [hstate]), if_neg (by simp [hcur])]
  simp [hplayer]

/-- C10: a roll leaves the turn index untouched at roll time (the index
moves only when the scheduled advance continuation fires), so a second
roll by the same on-turn participant arriving before the first advance
fires passes the turn check and is accepted: it overwrites that
participant's last roll and schedules a second advance continuation, and
once both continuations fire the turn index has moved by two — the next
participant's turn is skipped. -/
theorem roll_turn_index_deferred (rand : Nat → Nat) (w : World) (sid : String)
    (pl : Player) (r1 r2 r3 r4 : ℚ)
    (hstate : w.lobby.state = .PLAYING)
    (hcur : w.lobby.turnOrder[w.lobby.turnIndex]? = some sid)
    (hplayer : w.lobby.players.find? (fun p => p.id == sid) = some pl)
    (hlen : w.lobby.turnIndex + 2 < w.lobby.turnOrder.length)
    (hpend : w.pendingAdvances = 0) :
    ∃ w1 w2,
      rollDiceW sid r1 r2 w = some (w1, true) ∧
      w1.lobby.turnIndex = w.lobby.turnIndex ∧
      w1.pendingAdvances = 1 ∧
      rollDiceW sid r3 r4 w1 = some (w2, true) ∧
      w2.lobby.turnIndex = w.lobby.turnIndex ∧
      w2.pendingAdvances = 2 ∧
      w2.lobby.players.find? (fun p => p.id == sid)
          = some { pl with
                   lastRoll := some (getRandomInt 1 6 r3 + getRandomInt 1 6 r4) } ∧
      (advanceW rand (advanceW rand w2)).lobby.turnIndex
          = w.lobby.turnIndex + 2 ∧
      (advanceW rand (advanceW rand w2)).pendingAdvances = 0 := by
  have hA := advanceW_succ rand (performRollW (performRollW w sid r1 r2) sid r3 r4)
    1 (by show w.pendingAdvances + 1 + 1 = 1 + 1; rw [hpend])
    (by show w.lobby.turnIndex + 1 < w.lobby.turnOrder.length; omega)
  have hB := advanceW_succ rand
    (advanceW rand (performRollW (performRollW w sid r1 r2) sid r3 r4))
    0 hA.2.2
    (by
      rw [hA.1, hA.2.1]
      show w.lobby.turnIndex + 1 + 1 < w.lobby.turnOrder.length
      omega)
  refine ⟨performRollW w sid r1 r2,
    performRollW (performRollW w sid r1 r2) sid r3 r4,
    rollDiceW_on_turn sid r1 r2 w pl hstate hcur hplayer, rfl, ?_, ?_, rfl, ?_,
    ?_, ?_, hB.2.2⟩
  · show w.pendingAdvances + 1 = 1
    rw [hpend]
  · refine rollDiceW_on_turn sid r3 r4 _
      { pl with
        lastRoll := some (getRandomInt 1 6 r1 + getRandomInt 1 6 r2) }
      hstate hcur ?_
    show (setLastRoll w.lobby.players sid _).find? _ = _
    rw [setLastRoll_find, hplayer]
    rfl
  · show w.pendingAdvances + 1 + 1 = 2
    rw [hpend]
  · show (setLastRoll (setLastRoll w.lobby.players sid _) sid _).find? _ = _
    rw [setLastRoll_find, setLastRoll_find, hplayer]
    rfl
  · rw [hB.1, hA.1]
    show w.lobby.turnIndex + 1 + 1 = w.lobby.turnIndex + 2
    omega

/-- The world used for the C10 witness: four seated players, `"a"` on
turn, no pending continuations. -/
def exA : World :=
  ⟨⟨"r", "r", "a", "A", some "a", none, .PLAYING, 10, 40,
    [⟨"a", "A"⟩, ⟨"b", "B"⟩, ⟨"c", "C"⟩, ⟨"d", "D"⟩],
    [⟨"a", "A", none⟩, ⟨"b", "B", none⟩, ⟨"c", "C", none⟩, ⟨"d", "D", none⟩],
    ["a", "b", "c", "d"], 0, some "a"⟩, [], [], 0⟩

/-- Witness for C10 at `exA`: both rolls by `"a"` are accepted before any
advance fires and the two advances then move the index from 0 to 2. -/
theorem roll_turn_index_deferred_witness :
    ∃ w1 w2,
      rollDiceW "a" (1/2) (1/2) exA = some (w1, true) ∧
      w1.lobby.turnIndex = exA.lobby.turnIndex ∧
      w1.pendingAdvances = 1 ∧
      rollDiceW "a" (1/3) (1/3) w1 = some (w2, true) ∧
      w2.lobby.turnIndex = exA.lobby.turnIndex ∧
      w2.pendingAdvances = 2 ∧
      w2.lobby.players.find? (fun p => p.id == "a")
          = some ⟨"a", "A", some (getRandomInt 1 6 (1/3) + getRandomInt 1 6 (1/3))⟩ ∧
      (advanceW (fun _ => 0) (advanceW (fun _ => 0) w2)).lobby.turnIndex
          = exA.lobby.turnIndex + 2 ∧
      (advanceW (fun _ => 0) (advanceW (fun _ => 0) w2)).pendingAdvances = 0 :=
  roll_turn_index_deferred (fun _ => 0) exA "a" ⟨"a", "A", none⟩
    (1/2) (1/2) (1/3) (1/3) rfl rfl (by decide) (by decide) rfl

end DiceGame
